import Mathlib

/-!
# dictionary-tui: a shallow embedding of `cmd/dt/main.go`

The development follows the source file top to bottom:

* the API structures (`WordEntry`, `Meaning`, `Definition`, `Phonetic`);
* the two string helpers of the Go standard library the program relies on
  (`strings.TrimSpace` with `unicode.IsSpace`, and `strings.ToLower`);
* `lookupWord`, with the HTTP transport, the JSON decoder and the Unicode
  lower-casing table taken as parameters (they live outside the repository);
* `formatDefinition`, with the lipgloss styles taken as parameters;
* the bubbletea session: `model`, `initialModel`, `handleKeyMsg`,
  `handleSearchMode`, `handleHistoryMode`, `handleWindowSize`, `Update`,
  `addToHistory`, `lookupDefinitionCmd`, and the one-shot branch of `main`.

Go strings are modelled by Lean strings (sequences of Unicode code points),
Go `int` by `Int`, slices by lists, and `error` values by the inductive type
`LookupError` together with its message function `LookupError.Error`.
-/

set_option linter.dupNamespace false

namespace DictionaryTui

/-! ## API structures -/

structure Phonetic where
  Text : String
  Audio : String
  deriving DecidableEq, Repr

structure Definition where
  Definition : String
  Example : String
  deriving DecidableEq, Repr

structure Meaning where
  PartOfSpeech : String
  Definitions : List Definition
  deriving DecidableEq, Repr

structure WordEntry where
  Word : String
  Phonetic : String
  Phonetics : List DictionaryTui.Phonetic
  Meanings : List Meaning
  SourceUrls : List String
  deriving DecidableEq, Repr

/-! ## Constants -/

def maxHistory : Nat := 10

def defaultWidth : Int := 80

/-! ## Strings: `unicode.IsSpace`, `strings.TrimSpace`, `strings.ToLower` -/

/-- Go's `unicode.IsSpace`: the Latin-1 spaces are tab, line feed, vertical tab,
form feed, carriage return, space, NEL and NBSP; above Latin-1 the code points of
the `White_Space` table. -/
def IsSpace (r : Char) : Bool :=
  let n := r.toNat
  if n ≤ 0xFF then
    n == 0x09 || n == 0x0A || n == 0x0B || n == 0x0C || n == 0x0D || n == 0x20 ||
      n == 0x85 || n == 0xA0
  else
    n == 0x1680 || (0x2000 ≤ n && n ≤ 0x200A) || n == 0x2028 || n == 0x2029 ||
      n == 0x202F || n == 0x205F || n == 0x3000

/-- Go's `strings.TrimSpace`: all leading and trailing white space removed. -/
def TrimSpace (s : String) : String :=
  ⟨(s.data.dropWhile IsSpace).rdropWhile IsSpace⟩

/-- Go's `strings.ToLower`, which maps `unicode.ToLower` over the runes of the
string. The rune mapping is the parameter `toLower`. -/
def ToLower (toLower : Char → Char) (s : String) : String :=
  ⟨s.data.map toLower⟩

/-- A word is blank when every rune of it is white space (the empty word included). -/
def Blank (s : String) : Prop :=
  ∀ c ∈ s.data, IsSpace c = true

instance (s : String) : Decidable (Blank s) :=
  inferInstanceAs (Decidable (∀ c ∈ s.data, IsSpace c = true))

/-! ## The dictionary API client -/

/-- The errors `lookupWord` builds with `fmt.Errorf`, one constructor per call
site; the wrapped cause of a `%w` verb is kept as its message. -/
inductive LookupError where
  | emptyInput
  | network (cause : String)
  | readBody (cause : String)
  | notFound (word : String)
  | apiStatus (code : Int)
  | parse (cause : String)
  | noData (word : String)
  deriving DecidableEq, Repr

/-- The message of an error (Go's `err.Error()`). -/
def LookupError.Error : LookupError → String
  | .emptyInput => "please enter a word to search"
  | .network cause => "network error: " ++ cause
  | .readBody cause => "failed to read response body: " ++ cause
  | .notFound word => "definition for '" ++ word ++ "' not found"
  | .apiStatus code => "API returned status code " ++ toString code
  | .parse cause => "failed to parse API response: " ++ cause
  | .noData word => "no data found for '" ++ word ++ "'"

/-- What `client.Get(url)` followed by `io.ReadAll(resp.Body)` can produce: a
transport error, or a response with a status code whose body either fails to be
read (with a cause) or is read in full. -/
inductive HttpOutcome where
  | transportError (cause : String)
  | response (StatusCode : Int) (body : Except String String)

/-- The parts of the Go standard library `lookupWord` calls and that are not
code of the repository: the rune mapping of `unicode.ToLower` and
`json.Unmarshal` into a `[]WordEntry` (an error message, or the decoded slice). -/
structure Lib where
  toLower : Char → Char
  unmarshal : String → Except String (List WordEntry)

/-- The fixed part of the request URL. -/
def apiBase : String := "https://api.dictionaryapi.dev/api/v2/entries/en/"

/-- One run of `lookupWord`: the URLs handed to `client.Get`, in order, and the
returned pair `([]WordEntry, error)`. -/
structure LookupRun where
  requests : List String
  result : Except LookupError (List WordEntry)

/-- The function `lookupWord` of `main.go`. The transport `get` answers the one
`client.Get` call. -/
def lookupWord (L : Lib) (get : String → HttpOutcome) (word : String) : LookupRun :=
  let cleanWord := TrimSpace (ToLower L.toLower word)
  if cleanWord = "" then
    { requests := [], result := .error .emptyInput }
  else
    let url := apiBase ++ cleanWord
    { requests := [url]
      result :=
        match get url with
        | .transportError cause => .error (.network cause)
        | .response StatusCode body =>
          match body with
          | .error cause => .error (.readBody cause)
          | .ok body =>
            if StatusCode = 404 then
              .error (.notFound word)
            else if StatusCode ≠ 200 then
              .error (.apiStatus StatusCode)
            else
              match L.unmarshal body with
              | .error cause => .error (.parse cause)
              | .ok entries =>
                if entries.length = 0 then
                  .error (.noData word)
                else
                  .ok entries }

/-! ## The formatter -/

/-- The lipgloss styles of `main.go` that take part in the modelled code, each
as its `Render` function. -/
structure Styles where
  keywordStyle : String → String
  defStyle : String → String
  posStyle : String → String
  exampleStyle : String → String
  phoneticStyle : String → String
  titleStyle : String → String
  cliPanelStyle : String → String

/-- The inner loop of `formatDefinition`: `j` is the index of the `range` loop,
`builder` the contents of the `strings.Builder`. -/
def writeDefinitions (st : Styles) : Nat → List Definition → String → String
  | _, [], builder => builder
  | j, d :: rest, builder =>
    let builder := builder ++
      ("   " ++ st.defStyle (toString (j + 1) ++ ".") ++ " " ++ d.Definition ++ "\n")
    let builder :=
      if d.Example ≠ "" then
        builder ++ ("      " ++ st.exampleStyle ("• " ++ d.Example) ++ "\n")
      else builder
    writeDefinitions st (j + 1) rest builder

/-- The outer loop of `formatDefinition`. -/
def writeMeanings (st : Styles) : Nat → List Meaning → String → String
  | _, [], builder => builder
  | i, meaning :: rest, builder =>
    let builder := builder ++
      (st.posStyle (toString (i + 1) ++ ". " ++ meaning.PartOfSpeech) ++ "\n")
    let builder := writeDefinitions st 0 meaning.Definitions builder
    let builder := builder ++ "\n"
    writeMeanings st (i + 1) rest builder

/-- The function `formatDefinition` of `main.go`. -/
def formatDefinition (st : Styles) (entry : WordEntry) : String :=
  let builder := ""
  let builder := builder ++ st.keywordStyle entry.Word
  let builder :=
    if entry.Phonetic ≠ "" then builder ++ (" " ++ st.phoneticStyle entry.Phonetic)
    else builder
  let builder := builder ++ "\n\n"
  writeMeanings st 0 entry.Meanings builder

/-- One `WriteString` of `formatDefinition`, by call site. -/
inductive Piece where
  | title (word : String)
  | phonetic (text : String)
  | gap
  | header (index : Nat) (partOfSpeech : String)
  | item (index : Nat) (text : String)
  | bullet (text : String)
  | endOfMeaning
  deriving DecidableEq, Repr

/-- The text a piece stands for. -/
def Piece.render (st : Styles) : Piece → String
  | .title word => st.keywordStyle word
  | .phonetic text => " " ++ st.phoneticStyle text
  | .gap => "\n\n"
  | .header index partOfSpeech =>
    st.posStyle (toString index ++ ". " ++ partOfSpeech) ++ "\n"
  | .item index text =>
    "   " ++ st.defStyle (toString index ++ ".") ++ " " ++ text ++ "\n"
  | .bullet text => "      " ++ st.exampleStyle ("• " ++ text) ++ "\n"
  | .endOfMeaning => "\n"

/-- The text of a sequence of pieces. -/
def renderPieces (st : Styles) (ps : List Piece) : String :=
  ps.foldl (fun acc p => acc ++ p.render st) ""

/-- The layout the specification describes for one definition: the numbered
item, then the example bullet only if the example is non-empty. -/
def layoutDefinition (p : Nat × Definition) : List Piece :=
  Piece.item p.1 p.2.Definition ::
    (if p.2.Example ≠ "" then [Piece.bullet p.2.Example] else [])

/-- The layout the specification describes for one meaning: the numbered
part-of-speech header, the definitions numbered from 1, a blank line. -/
def layoutMeaning (p : Nat × Meaning) : List Piece :=
  Piece.header p.1 p.2.PartOfSpeech ::
    ((p.2.Definitions.enumFrom 1).flatMap layoutDefinition ++ [Piece.endOfMeaning])

/-- The layout the specification describes for an entry: word, phonetic if
non-empty, then the meanings numbered from 1 in their original order. -/
def layoutEntry (entry : WordEntry) : List Piece :=
  Piece.title entry.Word ::
    ((if entry.Phonetic ≠ "" then [Piece.phonetic entry.Phonetic] else []) ++
      Piece.gap :: (entry.Meanings.enumFrom 1).flatMap layoutMeaning)

/-- The part-of-speech headers of a sequence of pieces, with their numbers. -/
def headers (ps : List Piece) : List (Nat × String) :=
  ps.filterMap fun p =>
    match p with
    | .header index partOfSpeech => some (index, partOfSpeech)
    | _ => none

/-- The numbered definition items of a sequence of pieces. -/
def items (ps : List Piece) : List (Nat × String) :=
  ps.filterMap fun p =>
    match p with
    | .item index text => some (index, text)
    | _ => none

/-- Whether a piece is a part-of-speech header. -/
def Piece.isHeader : Piece → Bool
  | .header _ _ => true
  | _ => false

/-- The pieces under each header: for every header, the pieces that follow it
up to the next header. -/
def sections : List Piece → List (List Piece)
  | [] => []
  | p :: ps =>
    if p.isHeader then ps.takeWhile (fun q => !q.isHeader) :: sections ps
    else sections ps

/-- For every definition item of a sequence of pieces, the example bullet that
immediately follows it, if one does. -/
def bulletsAfterItems : List Piece → List (Option String)
  | [] => []
  | p :: ps =>
    match p with
    | .item _ _ =>
      (match ps.head? with
        | some (.bullet text) => some text
        | _ => none) :: bulletsAfterItems ps
    | _ => bulletsAfterItems ps

/-! ## Messages and commands -/

/-- The key types `handleKeyMsg` and the mode handlers distinguish, then typed
runes, then every other key. -/
inductive KeyType where
  | KeyCtrlC
  | KeyCtrlH
  | KeyEsc
  | KeyEnter
  | KeyRunes (runes : List Char)
  | KeyOther (code : Nat)
  deriving DecidableEq, Repr

/-- The messages `Update` receives: the four cases of its type switch, and any
other message of the toolkit (cursor blink and the like). -/
inductive Msg where
  | KeyMsg (key : KeyType)
  | WindowSizeMsg (Width : Int) (Height : Int)
  | resultMsg (text : String)
  | errMsg (err : LookupError)
  | other (id : Nat)
  deriving DecidableEq, Repr

/-- A command returned by a widget of the toolkit: nothing, `tea.Quit`, or some
other command of the widget (identified by a number). -/
inductive WidgetCmd where
  | none
  | quit
  | other (id : Nat)
  deriving DecidableEq, Repr

/-- The commands `Update` returns: `nil`, `tea.Quit`, the closure built by
`lookupDefinitionCmd(word)`, the command of one widget, or `tea.Batch` of the
commands of several widgets. -/
inductive Cmd where
  | nil
  | Quit
  | lookupDefinition (word : String)
  | widget (cmd : WidgetCmd)
  | Batch (cmds : List WidgetCmd)
  deriving DecidableEq, Repr

/-- Whether running the command makes the program quit. -/
def Cmd.issuesQuit : Cmd → Bool
  | .Quit => true
  | .widget cmd => cmd == WidgetCmd.quit
  | .Batch cmds => cmds.any (fun cmd => cmd == WidgetCmd.quit)
  | _ => false

/-- The words for which the command runs a lookup. -/
def Cmd.lookups : Cmd → List String
  | .lookupDefinition word => [word]
  | _ => []

/-! ## The widgets of the toolkit, as far as the program touches them -/

/-- The fields of `textinput.Model` the program reads or writes. -/
structure TextInput where
  value : String
  focus : Bool
  Placeholder : String
  CharLimit : Nat
  Width : Int
  deriving DecidableEq, Repr

def TextInput.Value (ti : TextInput) : String := ti.value

def TextInput.Focus (ti : TextInput) : TextInput := { ti with focus := true }

def TextInput.Blur (ti : TextInput) : TextInput := { ti with focus := false }

/-- The widget's `SetValue`: the value is cut to `CharLimit` runes when a limit is
set. (The program only ever sets the empty value.) -/
def TextInput.SetValue (ti : TextInput) (s : String) : TextInput :=
  { ti with
    value := if 0 < ti.CharLimit ∧ ti.CharLimit < s.data.length then ⟨s.data.take ti.CharLimit⟩
             else s }

/-- The fields of `viewport.Model` the program reads or writes. -/
structure Viewport where
  Width : Int
  Height : Int
  content : String
  YOffset : Nat
  deriving DecidableEq, Repr

def Viewport.New (width height : Int) : Viewport :=
  { Width := width, Height := height, content := "", YOffset := 0 }

def Viewport.SetContent (vp : Viewport) (s : String) : Viewport := { vp with content := s }

def Viewport.GotoTop (vp : Viewport) : Viewport := { vp with YOffset := 0 }

/-- The fields of `list.Model` the program reads or writes; an item is a
`historyItem`, that is a string. `SetShowFilter(false)` only hides the filter
bar, so the widget can still be filtering: `filterActive` says whether its
filter state is other than unfiltered, and `filteredItems` is the filtered view. -/
structure HistoryList where
  items : List String
  filterActive : Bool
  filteredItems : List String
  index : Nat
  width : Int
  height : Int
  Title : String
  showFilter : Bool
  deriving DecidableEq, Repr

def HistoryList.New (items : List String) (width height : Int) : HistoryList :=
  { items := items, filterActive := false, filteredItems := [], index := 0, width := width,
    height := height, Title := "List", showFilter := true }

def HistoryList.Items (h : HistoryList) : List String := h.items

/-- The widget's `VisibleItems`: the filtered view while a filter is active, all
the items otherwise. -/
def HistoryList.VisibleItems (h : HistoryList) : List String :=
  if h.filterActive then h.filteredItems else h.items

/-- The widget's `SetItems`: the items are replaced, and the filtered view is
emptied while a filter is active (the command that would filter again is the
return value, which `addToHistory` drops). -/
def HistoryList.SetItems (h : HistoryList) (items : List String) : HistoryList :=
  let h := { h with items := items }
  if h.filterActive then { h with filteredItems := [] } else h

def HistoryList.SetSize (h : HistoryList) (width height : Int) : HistoryList :=
  { h with width := width, height := height }

/-- The widget's `SelectedItem`: the visible item under the cursor, `nil` if
there is none. -/
def HistoryList.SelectedItem (h : HistoryList) : Option String := h.VisibleItems.get? h.index

/-- The two modes of the application. -/
inductive appMode where
  | searchMode
  | historyMode
  deriving DecidableEq, Repr

/-- The behaviour of the toolkit that stays a parameter: how each widget's own
`Update` reacts to a message, and the heights lipgloss measures for the header
and the footer when the window is resized. -/
structure Toolkit where
  textInputUpdate : TextInput → Msg → TextInput × WidgetCmd
  viewportUpdate : Viewport → Msg → Viewport × WidgetCmd
  listUpdate : HistoryList → Msg → HistoryList × WidgetCmd
  headerHeight : TextInput → Viewport → String → Int
  footerHeight : Viewport → appMode → Int

/-! ## The session -/

structure model where
  textInput : TextInput
  viewport : Viewport
  history : HistoryList
  definition : String
  word : String
  err : Option LookupError
  mode : appMode
  ready : Bool
  deriving DecidableEq, Repr

def initialModel : model :=
  let ti : TextInput :=
    { value := "", focus := false, Placeholder := "", CharLimit := 0, Width := 0 }
  let ti := { ti with Placeholder := "Enter word..." }
  let ti := ti.Focus
  let ti := { ti with CharLimit := 50 }
  let ti := { ti with Width := 30 }
  let vp := Viewport.New defaultWidth 20
  let vp := vp.SetContent "Welcome! Search for a word to see its definition here."
  let h := HistoryList.New [] defaultWidth 20
  let h := { h with Title := "Search History (Ctrl+H to switch)" }
  let h := { h with showFilter := false }
  { mode := .searchMode
    textInput := ti
    viewport := vp
    history := h
    definition := "Welcome! Search for a word to see its definition here."
    word := ""
    err := none
    ready := false }

/-- The method `addToHistory` of `main.go`. -/
def addToHistory (m : model) (word : String) : model :=
  let newItems := [word]
  let newItems := newItems ++ m.history.Items
  let newItems := if newItems.length > maxHistory then newItems.take maxHistory else newItems
  { m with history := m.history.SetItems newItems }

/-- The method `handleKeyMsg` of `main.go`: the new model, the command, and
whether the key was handled. -/
def handleKeyMsg (m : model) (key : KeyType) : model × Cmd × Bool :=
  match key with
  | .KeyCtrlC => (m, .Quit, true)
  | .KeyCtrlH =>
    if m.mode = .searchMode then
      let m := { m with mode := .historyMode }
      let m := { m with textInput := m.textInput.Blur }
      (m, .nil, true)
    else
      let m := { m with mode := .searchMode }
      let m := { m with textInput := m.textInput.Focus }
      (m, .nil, true)
  | .KeyEsc =>
    if m.mode = .historyMode then
      let m := { m with mode := .searchMode }
      let m := { m with textInput := m.textInput.Focus }
      (m, .nil, true)
    else (m, .nil, false)
  | _ => (m, .nil, false)

/-- The method `handleSearchMode` of `main.go`. -/
def handleSearchMode (tk : Toolkit) (m : model) (msg : Msg) : model × Cmd :=
  let delegate : model × Cmd :=
    let r := tk.textInputUpdate m.textInput msg
    let m := { m with textInput := r.1 }
    let cmds := [r.2]
    let r := tk.viewportUpdate m.viewport msg
    let m := { m with viewport := r.1 }
    let cmds := cmds ++ [r.2]
    (m, .Batch cmds)
  if msg = .KeyMsg .KeyEnter then
    let word := TrimSpace m.textInput.Value
    if word ≠ "" then
      let m := { m with word := word }
      let m := { m with textInput := m.textInput.SetValue "" }
      let m := { m with textInput := m.textInput.Blur }
      let m := addToHistory m word
      let m := { m with definition := "Searching..." }
      let m := { m with viewport := m.viewport.SetContent m.definition }
      let m := { m with viewport := m.viewport.GotoTop }
      (m, .lookupDefinition m.word)
    else delegate
  else delegate

/-- The method `handleHistoryMode` of `main.go`. -/
def handleHistoryMode (st : Styles) (tk : Toolkit) (m : model) (msg : Msg) : model × Cmd :=
  let delegate : model × Cmd :=
    let r := tk.listUpdate m.history msg
    let m := { m with history := r.1 }
    (m, .widget r.2)
  if msg = .KeyMsg .KeyEnter then
    match m.history.SelectedItem with
    | some selectedWord =>
      let m := { m with mode := .searchMode }
      let m := { m with word := selectedWord }
      let m := { m with textInput := m.textInput.Focus }
      let m := { m with
        definition := "Reviewing definition for: " ++ st.keywordStyle selectedWord ++ "..." }
      let m := { m with viewport := m.viewport.SetContent m.definition }
      let m := { m with viewport := m.viewport.GotoTop }
      (m, .lookupDefinition selectedWord)
    | none => delegate
  else delegate

/-- The method `handleWindowSize` of `main.go`. The style `appStyle` has padding
`(1, 2)`, so its horizontal padding is 4 and its vertical padding is 2. -/
def handleWindowSize (tk : Toolkit) (m : model) (Width Height : Int) : model :=
  let hPad : Int := 4 * 2
  let vPad : Int := 2 * 2
  let borderPad : Int := 2
  let headerHeight := tk.headerHeight m.textInput m.viewport m.word
  let footerHeight := tk.footerHeight m.viewport m.mode
  let availableWidth := Width - hPad - borderPad
  let availableHeight := Height - headerHeight - footerHeight - vPad - borderPad
  let m :=
    if !m.ready then
      let m := { m with viewport := Viewport.New availableWidth availableHeight }
      let m := { m with history := m.history.SetSize availableWidth availableHeight }
      { m with ready := true }
    else
      let m := { m with viewport := { m.viewport with Width := availableWidth } }
      let m := { m with viewport := { m.viewport with Height := availableHeight } }
      { m with history := m.history.SetSize availableWidth availableHeight }
  let m := { m with textInput := { m.textInput with Width := Int.tdiv m.viewport.Width 3 } }
  { m with viewport := m.viewport.SetContent m.definition }

/-- The end of `Update`: the message goes to the handler of the current mode. -/
def updateByMode (st : Styles) (tk : Toolkit) (m : model) (msg : Msg) : model × Cmd :=
  if m.mode = .searchMode then handleSearchMode tk m msg
  else handleHistoryMode st tk m msg

/-- The method `Update` of `main.go`. -/
def Update (st : Styles) (tk : Toolkit) (m : model) (msg : Msg) : model × Cmd :=
  match msg with
  | .KeyMsg key =>
    let r := handleKeyMsg m key
    let m := r.1
    if r.2.2 then (m, r.2.1) else updateByMode st tk m msg
  | .WindowSizeMsg Width Height =>
    let m := handleWindowSize tk m Width Height
    updateByMode st tk m msg
  | .resultMsg text =>
    let m := { m with definition := text }
    let m := { m with viewport := m.viewport.SetContent m.definition }
    let m := { m with textInput := m.textInput.Focus }
    updateByMode st tk m msg
  | .errMsg err =>
    let m := { m with err := some err }
    let m := { m with
      definition := "Error fetching definition: " ++ err.Error ++ "\nPress Enter to try again." }
    let m := { m with viewport := m.viewport.SetContent m.definition }
    let m := { m with textInput := m.textInput.Focus }
    updateByMode st tk m msg
  | .other _ => updateByMode st tk m msg

/-- The session after a sequence of messages, processed in arrival order. -/
def run (st : Styles) (tk : Toolkit) (m : model) (msgs : List Msg) : model :=
  msgs.foldl (fun m msg => (Update st tk m msg).1) m

/-- The session states the program can be in: the initial one, and every state
`Update` produces from a reachable one. -/
inductive Reachable (st : Styles) (tk : Toolkit) : model → Prop where
  | init : Reachable st tk initialModel
  | step (m : model) (msg : Msg) : Reachable st tk m → Reachable st tk (Update st tk m msg).1

/-- The closure `lookupDefinitionCmd(word)` of `main.go`, run against a
transport: the message it posts, or `none` if `entries[0]` is out of range. -/
def lookupDefinitionCmd (st : Styles) (L : Lib) (get : String → HttpOutcome) (word : String) :
    Option Msg :=
  match (lookupWord L get word).result with
  | .error err => some (.errMsg err)
  | .ok entries =>
    match entries.get? 0 with
    | none => none
    | some entry =>
      let result := formatDefinition st entry
      some (.resultMsg result)

/-- What the one-shot branch of `main` leaves behind: the text written to
standard output and standard error, and the exit status. -/
structure ProcessResult where
  stdout : String
  stderr : String
  exitCode : Nat
  deriving DecidableEq, Repr

/-- The branch of `main` taken when a word is given on the command line: the
result of the process, or `none` if `entries[0]` is out of range. -/
def mainLookup (st : Styles) (L : Lib) (get : String → HttpOutcome) (word : String) :
    Option ProcessResult :=
  match (lookupWord L get word).result with
  | .error err =>
    some { stdout := "", stderr := "Error: " ++ err.Error ++ "\n", exitCode := 1 }
  | .ok entries =>
    match entries.get? 0 with
    | none => none
    | some entry =>
      let title := st.titleStyle ("Dictionary-TUI: " ++ word)
      some { stdout := "\n" ++ title ++ "\n\n" ++ st.cliPanelStyle (formatDefinition st entry) ++ "\n"
             stderr := ""
             exitCode := 0 }

/-! ## Concrete instances of the parameters -/

/-- Styles that render their text unchanged (what lipgloss does without colour
support), except that the keyword style brackets it. -/
def plainStyles : Styles :=
  { keywordStyle := fun s => "[" ++ s ++ "]"
    defStyle := id
    posStyle := id
    exampleStyle := id
    phoneticStyle := id
    titleStyle := id
    cliPanelStyle := id }

/-- A small toolkit: typed runes are appended to a focused text input up to its
character limit, the list widget quits on the rune `q`, every other message
leaves the widgets as they are. -/
def basicToolkit : Toolkit :=
  { textInputUpdate := fun ti msg =>
      match msg with
      | .KeyMsg (.KeyRunes runes) =>
        if ti.focus then
          ({ ti with value := ⟨(ti.value.data ++ runes).take ti.CharLimit⟩ }, .other 0)
        else (ti, .none)
      | _ => (ti, .none)
    viewportUpdate := fun vp _ => (vp, .none)
    listUpdate := fun h msg =>
      match msg with
      | .KeyMsg (.KeyRunes ['q']) => (h, .quit)
      | _ => (h, .none)
    headerHeight := fun _ _ _ => 1
    footerHeight := fun _ _ => 1 }

/-- A sample entry. -/
def sampleEntry : WordEntry :=
  { Word := "hello"
    Phonetic := "/həˈləʊ/"
    Phonetics := []
    Meanings :=
      [ { PartOfSpeech := "noun"
          Definitions := [ { Definition := "A greeting.", Example := "She said hello." },
                           { Definition := "A call for attention.", Example := "" } ] },
        { PartOfSpeech := "verb"
          Definitions := [ { Definition := "To greet.", Example := "" } ] } ]
    SourceUrls := [] }

/-- A second sample entry, with nothing but its word. -/
def bareEntry : WordEntry :=
  { Word := "hi", Phonetic := "", Phonetics := [], Meanings := [], SourceUrls := [] }

/-- A small library: ASCII lower-casing, and a decoder that knows four bodies.
As `json.Unmarshal` does, it takes the JSON value `null` for the nil slice,
without an error. -/
def basicLib : Lib :=
  { toLower := Char.toLower
    unmarshal := fun body =>
      if body = "[]" then .ok []
      else if body = "null" then .ok []
      else if body = "[\x7b\"word\":\"hi\"\x7d]" then .ok [bareEntry]
      else if body = "[\x7b\"word\":\"hi\"\x7d,\x7b\"word\":\"hi\"\x7d]" then
        .ok [bareEntry, bareEntry]
      else .error "invalid character" }

/-! ## Assumptions on the parameters, and sample sessions -/

/-- What every JSON text that is an array has: after the JSON white space
(space, tab, line feed, carriage return), its first character is `[`. -/
def beginsArray (body : String) : Bool :=
  (body.data.dropWhile fun c => c == ' ' || c == '\t' || c == '\n' || c == '\r').head? == some '['

/-- The one fact about `unicode.ToLower` the client relies on: lower-casing
neither creates nor removes white space. -/
def Lib.KeepsSpaces (L : Lib) : Prop :=
  ∀ c : Char, IsSpace (L.toLower c) = IsSpace c

/-- A transport that is never reached by a successful connection. -/
def offline : String → HttpOutcome :=
  fun _ => .transportError "dial tcp: no route to host"

/-- A transport that answers every request with the given status and body. -/
def answering (StatusCode : Int) (body : String) : String → HttpOutcome :=
  fun _ => .response StatusCode (.ok body)

/-- The session after the mode-toggle key (Ctrl+H) is pressed twice in a row. -/
def toggleTwice (st : Styles) (tk : Toolkit) (m : model) : model :=
  (Update st tk (Update st tk m (.KeyMsg .KeyCtrlH)).1 (.KeyMsg .KeyCtrlH)).1

/-- What the widgets of bubbles do with the program's error message, which is
none of their own: the text input keeps its focus, the list keeps its items, and
no widget answers with `tea.Quit`. -/
structure Toolkit.QuietOnErr (tk : Toolkit) : Prop where
  textInput_focus : ∀ ti err, (tk.textInputUpdate ti (.errMsg err)).1.focus = ti.focus
  list_items : ∀ h err, (tk.listUpdate h (.errMsg err)).1.items = h.items
  textInput_cmd : ∀ ti err, (tk.textInputUpdate ti (.errMsg err)).2 ≠ .quit
  viewport_cmd : ∀ vp err, (tk.viewportUpdate vp (.errMsg err)).2 ≠ .quit
  list_cmd : ∀ h err, (tk.listUpdate h (.errMsg err)).2 ≠ .quit

/-- The session after the user typed ` Cat ` into the search field. -/
def typedExample : model :=
  run plainStyles basicToolkit initialModel [.KeyMsg (.KeyRunes [' ', 'C', 'a', 't', ' '])]

/-- The session while a lookup is in flight: the user typed `a` and pressed
Enter, and no result has arrived yet. -/
def inFlightExample : model :=
  run plainStyles basicToolkit initialModel [.KeyMsg (.KeyRunes ['a']), .KeyMsg .KeyEnter]

/-- The session in History mode with the word `a` selected: the user typed `a`,
pressed Enter, the result arrived, and the user pressed Ctrl+H. -/
def historyExample : model :=
  run plainStyles basicToolkit initialModel
    [.KeyMsg (.KeyRunes ['a']), .KeyMsg .KeyEnter, .resultMsg "[a]\n\n", .KeyMsg .KeyCtrlH]

/-! ## The history buffer -/

theorem SetItems_Items (h : HistoryList) (xs : List String) : (h.SetItems xs).Items = xs := by
  unfold HistoryList.SetItems HistoryList.Items
  simp only []
  split <;> rfl

theorem addToHistory_items (m : model) (w : String) :
    (addToHistory m w).history.Items = (w :: m.history.Items).take maxHistory := by
  simp only [addToHistory, SetItems_Items, List.singleton_append]
  split
  · rfl
  · rename_i h
    rw [List.take_of_length_le (by omega)]

theorem foldl_addToHistory_items_cons (ws : List String) :
    ∀ (m : model) (w : String),
      ((w :: ws).foldl addToHistory m).history.Items =
        ((w :: ws).reverse ++ m.history.Items).take maxHistory := by
  induction ws with
  | nil => intro m w; simp [addToHistory_items]
  | cons v vs ih =>
    intro m w
    rw [List.foldl_cons, ih (addToHistory m w) v, addToHistory_items]
    have key : ∀ (pre : List String) (l : List String),
        (pre ++ l.take maxHistory).take maxHistory = (pre ++ l).take maxHistory := by
      intro pre l
      rw [List.take_append_eq_append_take, List.take_append_eq_append_take, List.take_take,
        min_eq_left (Nat.sub_le _ _)]
    rw [key]
    simp

/-- C1. Adding the words `ws` one at a time, in order, to a history buffer leaves
the first 10 elements of `ws.reverse ++ b`, duplicates kept; this holds for every
buffer as soon as one word is added, and for the empty sequence on every buffer
of at most 10 words. A single add yields the first 10 of `w :: b`; the length is
at most 10 after an add; 11 distinct words added to the empty buffer leave the
last 10 of them, most recent first, and the first-added word is gone. -/
theorem addToHistory_spec :
    (∀ (m : model) (ws : List String),
      m.history.Items.length ≤ maxHistory ∨ ws ≠ [] →
      (ws.foldl addToHistory m).history.Items =
        (ws.reverse ++ m.history.Items).take 10) ∧
    (∀ (m : model) (w : String),
      (addToHistory m w).history.Items = (w :: m.history.Items).take 10) ∧
    (∀ (m : model) (w : String), (addToHistory m w).history.Items.length ≤ 10) ∧
    (∀ (m : model) (ws : List String),
      m.history.Items = [] → ws.length = 11 → ws.Nodup →
      (ws.foldl addToHistory m).history.Items = (ws.drop 1).reverse ∧
      (ws.foldl addToHistory m).history.Items.length = 10 ∧
      ∀ w ∈ ws.head?, w ∉ (ws.foldl addToHistory m).history.Items) := by
  have general : ∀ (m : model) (ws : List String),
      m.history.Items.length ≤ maxHistory ∨ ws ≠ [] →
      (ws.foldl addToHistory m).history.Items =
        (ws.reverse ++ m.history.Items).take 10 := by
    intro m ws h
    cases ws with
    | nil =>
      have hlen : m.history.Items.length ≤ maxHistory := by
        rcases h with h | h
        · exact h
        · exact absurd rfl h
      simp only [List.foldl_nil, List.reverse_nil, List.nil_append]
      exact (List.take_of_length_le hlen).symm
    | cons w ws => exact foldl_addToHistory_items_cons ws m w
  refine ⟨general, fun m w => addToHistory_items m w, ?_, ?_⟩
  · intro m w
    rw [addToHistory_items]
    exact List.length_take_le _ _
  · intro m ws hb hlen hnd
    have hres := general m ws (Or.inl (by simp [hb]))
    rw [hb, List.append_nil] at hres
    match ws, hlen, hnd with
    | w :: rest, hlen, hnd =>
      have hrest : rest.length = 10 := by simpa using hlen
      have htake : ((w :: rest).reverse).take 10 = rest.reverse := by
        rw [List.reverse_cons, List.take_append_eq_append_take]
        simp [hrest]
      rw [hres, htake]
      refine ⟨by simp, by simp [hrest], ?_⟩
      intro v hv
      simp only [List.head?_cons, Option.mem_def, Option.some.injEq] at hv
      subst hv
      simpa using (List.nodup_cons.mp hnd).1

/-- C1, at concrete inputs: three words added to the empty initial buffer, and
eleven distinct words added to it. -/
theorem addToHistory_spec_witness :
    ((["a", "b", "a"].foldl addToHistory initialModel).history.Items = ["a", "b", "a"]) ∧
    ((["w1", "w2", "w3", "w4", "w5", "w6", "w7", "w8", "w9", "w10", "w11"].foldl
        addToHistory initialModel).history.Items =
      ["w11", "w10", "w9", "w8", "w7", "w6", "w5", "w4", "w3", "w2"]) :=
  ⟨addToHistory_spec.1 initialModel ["a", "b", "a"] (Or.inr (by decide)),
   (addToHistory_spec.2.2.2 initialModel
      ["w1", "w2", "w3", "w4", "w5", "w6", "w7", "w8", "w9", "w10", "w11"]
      rfl (by decide) (by decide)).1⟩

/-! ## The API client -/

theorem TrimSpace_eq_empty_iff (s : String) : TrimSpace s = "" ↔ Blank s := by
  unfold TrimSpace Blank
  rw [String.ext_iff]
  show (s.data.dropWhile IsSpace).rdropWhile IsSpace = [] ↔ _
  rw [List.rdropWhile_eq_nil_iff]
  constructor
  · intro h
    have hnil : s.data.dropWhile IsSpace = [] := by
      by_contra hne
      have h1 := List.head_dropWhile_not IsSpace s.data hne
      have h2 := h _ (List.head_mem hne)
      rw [h1] at h2
      exact Bool.false_ne_true h2
    exact List.dropWhile_eq_nil_iff.mp hnil
  · intro h
    rw [List.dropWhile_eq_nil_iff.mpr h]
    intro x hx
    exact absurd hx (List.not_mem_nil x)

theorem Blank_ToLower (L : Lib) (hL : L.KeepsSpaces) (s : String) :
    Blank (ToLower L.toLower s) ↔ Blank s := by
  unfold Blank ToLower
  simp only [List.mem_map, forall_exists_index, and_imp, forall_apply_eq_imp_iff₂]
  constructor
  · intro h c hc
    rw [← hL c]
    exact h c hc
  · intro h c hc
    rw [hL c]
    exact h c hc

theorem cleanWord_eq_empty_iff (L : Lib) (hL : L.KeepsSpaces) (word : String) :
    TrimSpace (ToLower L.toLower word) = "" ↔ Blank word := by
  rw [TrimSpace_eq_empty_iff, Blank_ToLower L hL]

theorem basicLib_keepsSpaces : basicLib.KeepsSpaces := by
  intro c
  show IsSpace (Char.toLower c) = IsSpace c
  unfold Char.toLower
  simp only []
  split
  · rename_i h
    have hval : (Char.ofNat (c.toNat + 32)).toNat = c.toNat + 32 := by
      obtain ⟨h1, h2⟩ := h
      generalize c.toNat = n at *
      interval_cases n <;> rfl
    have hc : IsSpace c = false := by
      obtain ⟨h1, h2⟩ := h
      unfold IsSpace
      simp only []
      generalize c.toNat = n at *
      interval_cases n <;> rfl
    have hl : IsSpace (Char.ofNat (c.toNat + 32)) = false := by
      obtain ⟨h1, h2⟩ := h
      unfold IsSpace
      simp only [hval]
      generalize c.toNat = n at *
      interval_cases n <;> rfl
    rw [hc, hl]
  · rfl

/-- C2. For a word made of white space only (the empty word included),
`lookupWord` returns the empty-input error, whose message is "please enter a
word to search", and no entries; it hands no URL to the HTTP client, so the
outcome is the same whatever the transport would answer. -/
theorem lookupWord_blank (L : Lib) (hL : L.KeepsSpaces) (word : String) (hw : Blank word) :
    ∀ get : String → HttpOutcome,
      (lookupWord L get word).requests = [] ∧
      (lookupWord L get word).result = .error .emptyInput ∧
      LookupError.emptyInput.Error = "please enter a word to search" := by
  intro get
  have hclean := (cleanWord_eq_empty_iff L hL word).mpr hw
  simp only [lookupWord, hclean, if_true]
  exact ⟨trivial, trivial, rfl⟩

/-- C2, at the word made of a space, a tab, a no-break space and a line feed,
against a transport that would answer 200. -/
theorem lookupWord_blank_witness :
    Blank " \t\u00a0\n" ∧
    (lookupWord basicLib (answering 200 "[]") " \t\u00a0\n").requests = [] ∧
    (lookupWord basicLib (answering 200 "[]") " \t\u00a0\n").result = .error .emptyInput :=
  ⟨by decide,
   (lookupWord_blank basicLib basicLib_keepsSpaces " \t\u00a0\n" (by decide)
      (answering 200 "[]")).1,
   (lookupWord_blank basicLib basicLib_keepsSpaces " \t\u00a0\n" (by decide)
      (answering 200 "[]")).2.1⟩

theorem lookupWord_of_response (L : Lib) (hL : L.KeepsSpaces) (get : String → HttpOutcome)
    (w : String) (hw : ¬ Blank w) (status : Int) (body : String)
    (hget : get (apiBase ++ TrimSpace (ToLower L.toLower w)) = .response status (.ok body)) :
    (lookupWord L get w).result =
      if status = 404 then .error (.notFound w)
      else if status ≠ 200 then .error (.apiStatus status)
      else
        match L.unmarshal body with
        | .error cause => .error (.parse cause)
        | .ok entries => if entries.length = 0 then .error (.noData w) else .ok entries := by
  have hclean : ¬ TrimSpace (ToLower L.toLower w) = "" :=
    fun h => hw ((cleanWord_eq_empty_iff L hL w).mp h)
  simp only [lookupWord, hclean, if_false, hget]

/-- C3, as amended. For a non-blank word `w` and a response whose transport and
body read succeed, the result follows the status and what `json.Unmarshal`
makes of the body: status 404 gives the not-found error naming `w` as given;
another status that is not 200 gives the API error with that status code;
status 200 with a body `json.Unmarshal` rejects gives the parse error with its
cause; status 200 with a body it decodes without error to the empty slice gives
the no-data error naming `w`, which is the case of `[]` and also of `null`;
status 200 with a body it decodes to one or more entries returns those entries,
in order. -/
theorem lookupWord_response (L : Lib) (hL : L.KeepsSpaces) (get : String → HttpOutcome)
    (w : String) (hw : ¬ Blank w) (status : Int) (body : String)
    (hget : get (apiBase ++ TrimSpace (ToLower L.toLower w)) = .response status (.ok body)) :
    (status = 404 →
      (lookupWord L get w).result = .error (.notFound w) ∧
      (LookupError.notFound w).Error = "definition for '" ++ w ++ "' not found") ∧
    (status ≠ 404 → status ≠ 200 →
      (lookupWord L get w).result = .error (.apiStatus status) ∧
      (LookupError.apiStatus status).Error = "API returned status code " ++ toString status) ∧
    (status = 200 → ∀ cause, L.unmarshal body = .error cause →
      (lookupWord L get w).result = .error (.parse cause)) ∧
    (status = 200 → L.unmarshal body = .ok [] →
      (lookupWord L get w).result = .error (.noData w) ∧
      (LookupError.noData w).Error = "no data found for '" ++ w ++ "'") ∧
    (status = 200 → body = "[]" → L.unmarshal "[]" = .ok [] →
      (lookupWord L get w).result = .error (.noData w)) ∧
    (status = 200 → ∀ entries, entries ≠ [] → L.unmarshal body = .ok entries →
      (lookupWord L get w).result = .ok entries) ∧
    (status = 200 → body = "null" → L.unmarshal "null" = .ok [] →
      (lookupWord L get w).result = .error (.noData w)) := by
  have h := lookupWord_of_response L hL get w hw status body hget
  refine ⟨?_, ?_, ?_, ?_, ?_, ?_, ?_⟩
  · intro hs
    rw [h, if_pos hs]
    exact ⟨rfl, rfl⟩
  · intro h4 h2
    rw [h, if_neg h4, if_pos h2]
    exact ⟨rfl, rfl⟩
  · intro hs cause hu
    have h4 : ¬ status = 404 := by omega
    rw [h, if_neg h4, if_neg (not_not.mpr hs), hu]
  · intro hs hu
    have h4 : ¬ status = 404 := by omega
    rw [h, if_neg h4, if_neg (not_not.mpr hs), hu]
    exact ⟨rfl, rfl⟩
  · intro hs hb hu
    have h4 : ¬ status = 404 := by omega
    rw [h, if_neg h4, if_neg (not_not.mpr hs), hb, hu]
    rfl
  · intro hs entries hne hu
    have h4 : ¬ status = 404 := by omega
    have hlen : ¬ entries.length = 0 := fun h0 => hne (List.length_eq_zero.mp h0)
    rw [h, if_neg h4, if_neg (not_not.mpr hs), hu]
    simp only [hlen, if_false]
  · intro hs hb hu
    have h4 : ¬ status = 404 := by omega
    rw [h, if_neg h4, if_neg (not_not.mpr hs), hb, hu]
    rfl

/-- C3 as amended, at the three simulated responses of the specification, at a
response with two entries and at the body `null`. -/
theorem lookupWord_response_witness :
    (lookupWord basicLib (answering 404 "") "xyzzy").result = .error (.notFound "xyzzy") ∧
    (lookupWord basicLib (answering 200 "[]") "word").result = .error (.noData "word") ∧
    (lookupWord basicLib (answering 200 "null") "word").result = .error (.noData "word") ∧
    (lookupWord basicLib (answering 200 "<html>") "word").result =
      .error (.parse "invalid character") ∧
    (lookupWord basicLib (answering 200 "[\x7b\"word\":\"hi\"\x7d,\x7b\"word\":\"hi\"\x7d]")
      "Hi").result = .ok [bareEntry, bareEntry] :=
  ⟨((lookupWord_response basicLib basicLib_keepsSpaces (answering 404 "") "xyzzy"
      (by decide) 404 "" rfl).1 rfl).1,
   (lookupWord_response basicLib basicLib_keepsSpaces (answering 200 "[]") "word"
      (by decide) 200 "[]" rfl).2.2.2.2.1 rfl rfl rfl,
   (lookupWord_response basicLib basicLib_keepsSpaces (answering 200 "null") "word"
      (by decide) 200 "null" rfl).2.2.2.2.2.2 rfl rfl rfl,
   (lookupWord_response basicLib basicLib_keepsSpaces (answering 200 "<html>") "word"
      (by decide) 200 "<html>" rfl).2.2.1 rfl "invalid character" rfl,
   (lookupWord_response basicLib basicLib_keepsSpaces
      (answering 200 "[\x7b\"word\":\"hi\"\x7d,\x7b\"word\":\"hi\"\x7d]") "Hi"
      (by decide) 200 "[\x7b\"word\":\"hi\"\x7d,\x7b\"word\":\"hi\"\x7d]" rfl).2.2.2.2.2.1 rfl
      [bareEntry, bareEntry] (by decide) rfl⟩

/-- C3 fails as stated. The body `null` is not a JSON array, so it is not valid
JSON for an entry array; yet `json.Unmarshal` takes it without an error for the
nil slice, and at status 200 `lookupWord` answers with the no-data error for
the word, not with the parse error. -/
theorem lookupWord_response_counterexample :
    ¬ Blank "word" ∧
    beginsArray "null" = false ∧
    basicLib.unmarshal "null" = .ok [] ∧
    (lookupWord basicLib (answering 200 "null") "word").result = .error (.noData "word") ∧
    ∀ cause : String,
      (lookupWord basicLib (answering 200 "null") "word").result ≠ .error (.parse cause) := by
  have hres : (lookupWord basicLib (answering 200 "null") "word").result =
      .error (.noData "word") := rfl
  refine ⟨by decide, by decide, rfl, hres, ?_⟩
  intro cause h
  rw [hres] at h
  cases h

/-- C9, as amended. For a non-blank word, `lookupWord` hands exactly one URL to
the HTTP client: the fixed base followed by the trimmed, lower-cased word as it
is, without any escaping. -/
theorem lookupWord_url (L : Lib) (hL : L.KeepsSpaces) (get : String → HttpOutcome)
    (word : String) (hw : ¬ Blank word) :
    (lookupWord L get word).requests =
      ["https://api.dictionaryapi.dev/api/v2/entries/en/" ++
        TrimSpace (ToLower L.toLower word)] := by
  have hclean : ¬ TrimSpace (ToLower L.toLower word) = "" :=
    fun h => hw ((cleanWord_eq_empty_iff L hL word).mp h)
  simp only [lookupWord, hclean, if_false]
  rfl

/-- C9 as amended, at the word `"  Serendipity "`. -/
theorem lookupWord_url_witness :
    ¬ Blank "  Serendipity " ∧
    (lookupWord basicLib offline "  Serendipity ").requests =
      ["https://api.dictionaryapi.dev/api/v2/entries/en/serendipity"] :=
  ⟨by decide,
   lookupWord_url basicLib basicLib_keepsSpaces offline "  Serendipity " (by decide)⟩

/-- C9 fails as stated. For the non-blank word `"Rock n/roll?#1"` the URL handed
to the HTTP client is the base followed by `rock n/roll?#1`: the space, the
slash, the question mark and the hash of the word are all there unescaped, and
the URL is not the base followed by any text free of a raw question mark. -/
theorem lookupWord_url_counterexample :
    ¬ Blank "Rock n/roll?#1" ∧
    (lookupWord basicLib offline "Rock n/roll?#1").requests =
      [apiBase ++ "rock n/roll?#1"] ∧
    ' ' ∈ "rock n/roll?#1".data ∧ '/' ∈ "rock n/roll?#1".data ∧
    '?' ∈ "rock n/roll?#1".data ∧ '#' ∈ "rock n/roll?#1".data ∧
    ∀ encoded : String, '?' ∉ encoded.data →
      (lookupWord basicLib offline "Rock n/roll?#1").requests ≠ [apiBase ++ encoded] := by
  refine ⟨by decide, by decide, by decide, by decide, by decide, by decide, ?_⟩
  intro encoded henc hreq
  have hurl : (lookupWord basicLib offline "Rock n/roll?#1").requests =
      [apiBase ++ "rock n/roll?#1"] := by decide
  rw [hurl] at hreq
  have hdata := congrArg String.data (List.cons.inj hreq).1
  rw [String.data_append, String.data_append] at hdata
  have htail := List.append_cancel_left hdata
  apply henc
  rw [← htail]
  decide

/-- C10. When `lookupWord` returns without an error its entry list is
non-empty; hence `entries[0]` is in range in `lookupDefinitionCmd` and in the
one-shot branch of `main`, which therefore always produce their result. On
success the posted message is `formatDefinition` of entry 0, and two successful
lookups that agree on entry 0 post the same message whatever entries follow. -/
theorem lookupWord_ok_nonempty (st : Styles) (L : Lib) (get : String → HttpOutcome)
    (word : String) :
    (∀ entries, (lookupWord L get word).result = .ok entries →
      entries ≠ [] ∧
      ∃ entry rest, entries = entry :: rest ∧
        lookupDefinitionCmd st L get word = some (.resultMsg (formatDefinition st entry)) ∧
        mainLookup st L get word =
          some { stdout := "\n" ++ st.titleStyle ("Dictionary-TUI: " ++ word) ++ "\n\n" ++
                   st.cliPanelStyle (formatDefinition st entry) ++ "\n"
                 stderr := ""
                 exitCode := 0 }) ∧
    (lookupDefinitionCmd st L get word).isSome = true ∧
    (mainLookup st L get word).isSome = true ∧
    (∀ (get' : String → HttpOutcome) (word' : String) (entry : WordEntry)
        (rest rest' : List WordEntry),
      (lookupWord L get word).result = .ok (entry :: rest) →
      (lookupWord L get' word').result = .ok (entry :: rest') →
      lookupDefinitionCmd st L get word = lookupDefinitionCmd st L get' word') := by
  have hne : ∀ (g : String → HttpOutcome) (w : String) (entries : List WordEntry),
      (lookupWord L g w).result = .ok entries → entries ≠ [] := by
    intro g w entries h
    unfold lookupWord at h
    simp only [] at h
    split at h
    · cases h
    · simp only [] at h
      split at h
      · cases h
      · split at h
        · cases h
        · split at h
          · cases h
          · split at h
            · cases h
            · split at h
              · cases h
              · split at h
                · cases h
                · rename_i hlen
                  cases h
                  exact fun h0 => hlen (by rw [h0]; rfl)
  have hcmd : ∀ (g : String → HttpOutcome) (w : String) (entry : WordEntry)
      (rest : List WordEntry), (lookupWord L g w).result = .ok (entry :: rest) →
      lookupDefinitionCmd st L g w = some (.resultMsg (formatDefinition st entry)) := by
    intro g w entry rest h
    simp only [lookupDefinitionCmd, h, List.get?_cons_zero]
  have hsome : ∀ r : Except LookupError (List WordEntry),
      (lookupWord L get word).result = r →
      (lookupDefinitionCmd st L get word).isSome = true ∧
      (mainLookup st L get word).isSome = true := by
    intro r hr
    cases r with
    | error err => simp only [lookupDefinitionCmd, mainLookup, hr, Option.isSome_some, and_self]
    | ok entries =>
      cases entries with
      | nil => exact absurd rfl (hne get word [] hr)
      | cons entry rest =>
        simp only [lookupDefinitionCmd, mainLookup, hr, List.get?_cons_zero, Option.isSome_some,
          and_self]
  refine ⟨?_, (hsome _ rfl).1, (hsome _ rfl).2, ?_⟩
  · intro entries h
    refine ⟨hne get word entries h, ?_⟩
    cases entries with
    | nil => exact absurd rfl (hne get word [] h)
    | cons entry rest =>
      refine ⟨entry, rest, rfl, hcmd get word entry rest h, ?_⟩
      simp only [mainLookup, h, List.get?_cons_zero]
  · intro get' word' entry rest rest' h h'
    rw [hcmd get word entry rest h, hcmd get' word' entry rest' h']

/-- C10, at a response with two entries: the lookup succeeds with both, and the
posted message is the formatted first entry. -/
theorem lookupWord_ok_nonempty_witness :
    (lookupWord basicLib (answering 200 "[\x7b\"word\":\"hi\"\x7d,\x7b\"word\":\"hi\"\x7d]")
      "hi").result = .ok [bareEntry, bareEntry] ∧
    [bareEntry, bareEntry] ≠ [] ∧
    lookupDefinitionCmd plainStyles basicLib
      (answering 200 "[\x7b\"word\":\"hi\"\x7d,\x7b\"word\":\"hi\"\x7d]") "hi" =
      some (.resultMsg "[hi]\n\n") :=
  ⟨rfl,
   ((lookupWord_ok_nonempty plainStyles basicLib
      (answering 200 "[\x7b\"word\":\"hi\"\x7d,\x7b\"word\":\"hi\"\x7d]") "hi").1
      [bareEntry, bareEntry] rfl).1,
   by decide⟩

/-! ## The formatter -/

theorem foldl_render (st : Styles) (ps : List Piece) :
    ∀ acc : String, ps.foldl (fun acc p => acc ++ p.render st) acc = acc ++ renderPieces st ps := by
  unfold renderPieces
  induction ps with
  | nil => intro acc; simp
  | cons p ps ih =>
    intro acc
    rw [List.foldl_cons, List.foldl_cons, ih (acc ++ p.render st), ih ("" ++ p.render st),
      String.empty_append, String.append_assoc]

theorem renderPieces_cons (st : Styles) (p : Piece) (ps : List Piece) :
    renderPieces st (p :: ps) = p.render st ++ renderPieces st ps := by
  show List.foldl _ _ _ = _
  rw [List.foldl_cons, foldl_render, String.empty_append]

theorem renderPieces_append (st : Styles) (ps qs : List Piece) :
    renderPieces st (ps ++ qs) = renderPieces st ps ++ renderPieces st qs := by
  show List.foldl _ _ _ = _
  rw [List.foldl_append, foldl_render]
  rfl

theorem renderPieces_nil (st : Styles) : renderPieces st [] = "" := rfl

theorem writeDefinitions_eq (st : Styles) (ds : List Definition) :
    ∀ (j : Nat) (builder : String),
      writeDefinitions st j ds builder =
        builder ++ renderPieces st ((ds.enumFrom (j + 1)).flatMap layoutDefinition) := by
  induction ds with
  | nil => intro j builder; simp [writeDefinitions, renderPieces_nil]
  | cons d ds ih =>
    intro j builder
    rw [writeDefinitions, List.enumFrom_cons, List.flatMap_cons, renderPieces_append]
    simp only [ih, layoutDefinition]
    by_cases hex : d.Example = ""
    · simp [hex, renderPieces_cons, renderPieces_nil, Piece.render, String.append_assoc]
    · simp [hex, renderPieces_cons, renderPieces_nil, Piece.render, String.append_assoc]

theorem writeMeanings_eq (st : Styles) (ms : List Meaning) :
    ∀ (i : Nat) (builder : String),
      writeMeanings st i ms builder =
        builder ++ renderPieces st ((ms.enumFrom (i + 1)).flatMap layoutMeaning) := by
  induction ms with
  | nil => intro i builder; simp [writeMeanings, renderPieces_nil]
  | cons m ms ih =>
    intro i builder
    rw [writeMeanings, List.enumFrom_cons, List.flatMap_cons, renderPieces_append]
    simp only [ih, layoutMeaning, writeDefinitions_eq, renderPieces_cons, renderPieces_append,
      renderPieces_nil, Piece.render, String.append_assoc, String.append_empty, Nat.zero_add]

theorem formatDefinition_eq_layout (st : Styles) (entry : WordEntry) :
    formatDefinition st entry = renderPieces st (layoutEntry entry) := by
  unfold formatDefinition layoutEntry
  simp only [writeMeanings_eq, Nat.zero_add]
  by_cases hph : entry.Phonetic = ""
  · simp [hph, renderPieces_cons, Piece.render, String.append_assoc]
  · simp [hph, renderPieces_cons, Piece.render, String.append_assoc]

/-- The pieces under the header of a meaning: its definitions, then the blank line. -/
theorem layoutMeaning_eq (p : Nat × Meaning) :
    layoutMeaning p = Piece.header p.1 p.2.PartOfSpeech ::
      ((p.2.Definitions.enumFrom 1).flatMap layoutDefinition ++ [Piece.endOfMeaning]) := rfl

theorem isHeader_layoutDefinitions (l : List (Nat × Definition)) :
    ∀ q ∈ l.flatMap layoutDefinition ++ [Piece.endOfMeaning], q.isHeader = false := by
  intro q hq
  simp only [List.mem_append, List.mem_flatMap, List.mem_singleton] at hq
  rcases hq with ⟨p, _, hq⟩ | hq
  · unfold layoutDefinition at hq
    split at hq
    · simp only [List.mem_cons, List.mem_singleton, List.not_mem_nil, or_false] at hq
      rcases hq with rfl | rfl <;> rfl
    · simp only [List.mem_cons, List.not_mem_nil, or_false] at hq
      subst hq
      rfl
  · subst hq
    rfl

theorem headers_of_no_header (ps : List Piece) (h : ∀ q ∈ ps, q.isHeader = false) :
    headers ps = [] := by
  unfold headers
  rw [List.filterMap_eq_nil_iff]
  intro q hq
  have := h q hq
  cases q <;> simp_all [Piece.isHeader]

theorem sections_of_no_header (ps rest : List Piece) (h : ∀ q ∈ ps, q.isHeader = false) :
    sections (ps ++ rest) = sections rest := by
  induction ps with
  | nil => rfl
  | cons q qs ih =>
    have hq : q.isHeader = false := h q (List.mem_cons_self _ _)
    rw [List.cons_append, sections]
    simp only [hq, Bool.false_eq_true, if_false]
    exact ih (fun r hr => h r (List.mem_cons_of_mem _ hr))

theorem takeWhile_of_no_header (ps rest : List Piece) (h : ∀ q ∈ ps, q.isHeader = false)
    (hrest : ∀ q ∈ rest.head?, q.isHeader = true) :
    (ps ++ rest).takeWhile (fun q => !q.isHeader) = ps := by
  induction ps with
  | nil =>
    cases rest with
    | nil => rfl
    | cons r rs =>
      have hr : r.isHeader = true := hrest r rfl
      simp [List.takeWhile, hr]
  | cons q qs ih =>
    have hq : q.isHeader = false := h q (List.mem_cons_self _ _)
    rw [List.cons_append, List.takeWhile_cons]
    simp only [hq, Bool.not_false, if_true]
    rw [ih (fun r hr => h r (List.mem_cons_of_mem _ hr))]

theorem head_flatMap_layoutMeaning (l : List (Nat × Meaning)) :
    ∀ q ∈ (l.flatMap layoutMeaning).head?, q.isHeader = true := by
  intro q hq
  cases l with
  | nil => cases hq
  | cons p l =>
    rw [List.flatMap_cons, layoutMeaning_eq] at hq
    simp only [List.cons_append, List.head?_cons, Option.mem_def, Option.some.injEq] at hq
    subst hq
    rfl

theorem headers_flatMap_layoutMeaning (l : List (Nat × Meaning)) :
    headers (l.flatMap layoutMeaning) = l.map (fun p => (p.1, p.2.PartOfSpeech)) := by
  induction l with
  | nil => rfl
  | cons p l ih =>
    rw [List.flatMap_cons, layoutMeaning_eq, List.map_cons, ← ih]
    have hbody := headers_of_no_header _ (isHeader_layoutDefinitions (p.2.Definitions.enumFrom 1))
    unfold headers at hbody ⊢
    rw [List.cons_append, List.filterMap_cons, List.filterMap_append, hbody]
    rfl

theorem sections_flatMap_layoutMeaning (l : List (Nat × Meaning)) :
    sections (l.flatMap layoutMeaning) =
      l.map (fun p => (p.2.Definitions.enumFrom 1).flatMap layoutDefinition ++
        [Piece.endOfMeaning]) := by
  induction l with
  | nil => rfl
  | cons p l ih =>
    rw [List.flatMap_cons, layoutMeaning_eq, List.map_cons, ← ih, List.cons_append, sections,
      if_pos (show (Piece.header p.1 p.2.PartOfSpeech).isHeader = true from rfl)]
    rw [takeWhile_of_no_header _ _ (isHeader_layoutDefinitions _) (head_flatMap_layoutMeaning l),
      sections_of_no_header _ _ (isHeader_layoutDefinitions _)]

theorem items_layoutDefinitions (l : List (Nat × Definition)) :
    items (l.flatMap layoutDefinition ++ [Piece.endOfMeaning]) =
      l.map (fun p => (p.1, p.2.Definition)) := by
  induction l with
  | nil => rfl
  | cons p l ih =>
    rw [List.flatMap_cons, List.map_cons, ← ih]
    unfold items layoutDefinition
    by_cases hex : p.2.Example = "" <;> simp [hex]

theorem bulletsAfterItems_layoutDefinitions (l : List (Nat × Definition)) :
    bulletsAfterItems (l.flatMap layoutDefinition ++ [Piece.endOfMeaning]) =
      l.map (fun p => if p.2.Example ≠ "" then some p.2.Example else none) := by
  induction l with
  | nil => rfl
  | cons p l ih =>
    rw [List.flatMap_cons, List.map_cons, ← ih]
    by_cases hex : p.2.Example = ""
    · have hhead : ∀ text, (l.flatMap layoutDefinition ++ [Piece.endOfMeaning]).head? ≠
          some (Piece.bullet text) := by
        intro text
        cases l with
        | nil => simp
        | cons q l => simp [List.flatMap_cons, layoutDefinition]
      simp only [layoutDefinition, hex, ne_eq, not_true_eq_false, if_false, List.cons_append,
        List.nil_append, bulletsAfterItems]
      congr 1
      split
      · rename_i text heq
        exact absurd heq (hhead text)
      · rfl
    · simp [layoutDefinition, hex, bulletsAfterItems]

theorem headers_layoutEntry (entry : WordEntry) :
    headers (layoutEntry entry) =
      headers ((entry.Meanings.enumFrom 1).flatMap layoutMeaning) := by
  unfold layoutEntry headers
  by_cases hph : entry.Phonetic = "" <;> simp [hph]

theorem sections_layoutEntry (entry : WordEntry) :
    sections (layoutEntry entry) =
      sections ((entry.Meanings.enumFrom 1).flatMap layoutMeaning) := by
  unfold layoutEntry
  by_cases hph : entry.Phonetic = "" <;> simp [hph, sections, Piece.isHeader]

/-- C4. The output of `formatDefinition` is the text of the layout of the
entry, piece by piece; that layout has one part-of-speech header per meaning,
numbered 1..n in the order of the meanings; under the i-th header it has one
numbered item per definition of the i-th meaning, numbered from 1 in their
order; and an example bullet (with the example as its text) comes right after
an item exactly when the example of that definition is non-empty. -/
theorem formatDefinition_structure (st : Styles) (entry : WordEntry) :
    formatDefinition st entry = renderPieces st (layoutEntry entry) ∧
    headers (layoutEntry entry) =
      (entry.Meanings.map Meaning.PartOfSpeech).enumFrom 1 ∧
    (headers (layoutEntry entry)).length = entry.Meanings.length ∧
    (sections (layoutEntry entry)).map items =
      entry.Meanings.map (fun m => (m.Definitions.map Definition.Definition).enumFrom 1) ∧
    (sections (layoutEntry entry)).map (fun ps => (items ps).length) =
      entry.Meanings.map (fun m => m.Definitions.length) ∧
    (sections (layoutEntry entry)).map bulletsAfterItems =
      entry.Meanings.map (fun m =>
        m.Definitions.map (fun d => if d.Example ≠ "" then some d.Example else none)) := by
  have hheaders : headers (layoutEntry entry) =
      (entry.Meanings.map Meaning.PartOfSpeech).enumFrom 1 := by
    rw [headers_layoutEntry, headers_flatMap_layoutMeaning, List.enumFrom_map]
    rfl
  have hsections : sections (layoutEntry entry) =
      (entry.Meanings.enumFrom 1).map (fun p =>
        (p.2.Definitions.enumFrom 1).flatMap layoutDefinition ++ [Piece.endOfMeaning]) := by
    rw [sections_layoutEntry, sections_flatMap_layoutMeaning]
  have hsnd : ∀ {β : Type} (f : Meaning → β),
      (entry.Meanings.enumFrom 1).map (fun p => f p.2) = entry.Meanings.map f := by
    intro β f
    have h := congrArg (List.map f) (List.enumFrom_map_snd 1 entry.Meanings)
    rw [List.map_map] at h
    exact h
  have hitems : (sections (layoutEntry entry)).map items =
      entry.Meanings.map (fun m => (m.Definitions.map Definition.Definition).enumFrom 1) := by
    rw [hsections, List.map_map, ← hsnd]
    apply List.map_congr_left
    intro p _
    show items _ = _
    rw [items_layoutDefinitions, List.enumFrom_map]
    rfl
  refine ⟨formatDefinition_eq_layout st entry, hheaders, ?_, hitems, ?_, ?_⟩
  · rw [hheaders, List.enumFrom_length, List.length_map]
  · have h := congrArg (List.map List.length) hitems
    rw [List.map_map, List.map_map] at h
    rw [show (fun ps => (items ps).length) = List.length ∘ items from rfl, h]
    apply List.map_congr_left
    intro m _
    simp
  · rw [hsections, List.map_map, ← hsnd]
    apply List.map_congr_left
    intro p _
    show bulletsAfterItems _ = _
    rw [bulletsAfterItems_layoutDefinitions]
    have h := congrArg
      (List.map (fun d : Definition => if d.Example ≠ "" then some d.Example else none))
      (List.enumFrom_map_snd 1 p.2.Definitions)
    rw [List.map_map] at h
    exact h

/-! ## The session -/

theorem reachable_run (st : Styles) (tk : Toolkit) (msgs : List Msg) :
    ∀ m : model, Reachable st tk m → Reachable st tk (run st tk m msgs) := by
  induction msgs with
  | nil => intro m hm; exact hm
  | cons msg msgs ih =>
    intro m hm
    exact ih _ (Reachable.step m msg hm)

theorem basicToolkit_quietOnErr : basicToolkit.QuietOnErr :=
  { textInput_focus := fun _ _ => rfl
    list_items := fun _ _ => rfl
    textInput_cmd := fun _ _ => by simp [basicToolkit]
    viewport_cmd := fun _ _ => by simp [basicToolkit]
    list_cmd := fun _ _ => by simp [basicToolkit] }

/-- C5, as amended. Pressing Ctrl+H twice in a row, from any session state,
returns to the original mode and changes nothing but the focus of the text
input, which ends focused exactly when that mode is Search; so the original
focus state comes back exactly when the input was focused in Search mode or
blurred in History mode. -/
theorem toggleTwice_spec (st : Styles) (tk : Toolkit) (m : model) :
    (toggleTwice st tk m).mode = m.mode ∧
    (toggleTwice st tk m).textInput.focus = decide (m.mode = .searchMode) ∧
    toggleTwice st tk m =
      { m with textInput := { m.textInput with focus := decide (m.mode = .searchMode) } } ∧
    ((toggleTwice st tk m).textInput.focus = m.textInput.focus ↔
      (m.textInput.focus = true ↔ m.mode = .searchMode)) := by
  have heq : toggleTwice st tk m =
      { m with textInput := { m.textInput with focus := decide (m.mode = .searchMode) } } := by
    cases hmode : m.mode <;>
      simp [toggleTwice, Update, handleKeyMsg, hmode, TextInput.Blur, TextInput.Focus]
  refine ⟨by rw [heq], by rw [heq], heq, ?_⟩
  rw [heq]
  cases hmode : m.mode <;> cases hfocus : m.textInput.focus <;> simp

/-- C5 fails as stated. While a lookup is in flight (typed `a`, pressed Enter) the
session is in Search mode with the text input blurred; it is reachable from the
initial state, and after Ctrl+H twice the text input is focused. -/
theorem toggleTwice_counterexample :
    Reachable plainStyles basicToolkit inFlightExample ∧
    inFlightExample.mode = .searchMode ∧
    inFlightExample.textInput.focus = false ∧
    (toggleTwice plainStyles basicToolkit inFlightExample).mode = .searchMode ∧
    (toggleTwice plainStyles basicToolkit inFlightExample).textInput.focus = true :=
  ⟨reachable_run _ _ _ _ Reachable.init, by decide, by decide, by decide, by decide⟩

theorem Update_enter_searchMode (st : Styles) (tk : Toolkit) (m : model)
    (hmode : m.mode = .searchMode) :
    Update st tk m (.KeyMsg .KeyEnter) = handleSearchMode tk m (.KeyMsg .KeyEnter) := by
  simp [Update, handleKeyMsg, updateByMode, hmode]

theorem Update_enter_historyMode (st : Styles) (tk : Toolkit) (m : model)
    (hmode : m.mode = .historyMode) :
    Update st tk m (.KeyMsg .KeyEnter) = handleHistoryMode st tk m (.KeyMsg .KeyEnter) := by
  simp [Update, handleKeyMsg, updateByMode, hmode]

/-- C6. In Search mode, when the input trimmed of white space is non-empty, Enter
leaves the session in Search mode with an empty input, the trimmed input as the
last searched word, that word at the front of the history (cut to 10), the
status text "Searching...", and the command is the lookup of that word, once.
When the trimmed input is empty, the last searched word and the history are
unchanged and the command runs no lookup. -/
theorem submit_searchMode (st : Styles) (tk : Toolkit) (m : model)
    (hmode : m.mode = .searchMode) :
    (TrimSpace m.textInput.Value ≠ "" →
      (Update st tk m (.KeyMsg .KeyEnter)).1.mode = .searchMode ∧
      (Update st tk m (.KeyMsg .KeyEnter)).1.textInput.Value = "" ∧
      (Update st tk m (.KeyMsg .KeyEnter)).1.word = TrimSpace m.textInput.Value ∧
      (Update st tk m (.KeyMsg .KeyEnter)).1.history.Items =
        (TrimSpace m.textInput.Value :: m.history.Items).take 10 ∧
      (Update st tk m (.KeyMsg .KeyEnter)).1.definition = "Searching..." ∧
      (Update st tk m (.KeyMsg .KeyEnter)).2 =
        .lookupDefinition (TrimSpace m.textInput.Value) ∧
      (Update st tk m (.KeyMsg .KeyEnter)).2.lookups = [TrimSpace m.textInput.Value]) ∧
    (TrimSpace m.textInput.Value = "" →
      (Update st tk m (.KeyMsg .KeyEnter)).1.word = m.word ∧
      (Update st tk m (.KeyMsg .KeyEnter)).1.history = m.history ∧
      (Update st tk m (.KeyMsg .KeyEnter)).2.lookups = []) := by
  rw [Update_enter_searchMode st tk m hmode]
  constructor
  · intro hword
    have hitems := addToHistory_items
      { m with word := TrimSpace m.textInput.Value,
               textInput := ((m.textInput.SetValue "").Blur) } (TrimSpace m.textInput.Value)
    simp only [handleSearchMode, hword, ne_eq, not_false_eq_true, if_true]
    refine ⟨?_, ?_, ?_, ?_, trivial, rfl, rfl⟩
    · simpa [addToHistory] using hmode
    · simp [addToHistory, TextInput.SetValue, TextInput.Blur, TextInput.Value]
    · simp [addToHistory]
    · exact hitems
  · intro hword
    simp only [handleSearchMode, hword, ne_eq, not_true_eq_false, if_false, if_true]
    exact ⟨trivial, trivial, rfl⟩

/-- C6, at the session in which the user typed ` Cat ` into the search field. -/
theorem submit_searchMode_witness :
    typedExample.mode = .searchMode ∧
    TrimSpace typedExample.textInput.Value = "Cat" ∧
    (Update plainStyles basicToolkit typedExample (.KeyMsg .KeyEnter)).1.word = "Cat" ∧
    (Update plainStyles basicToolkit typedExample (.KeyMsg .KeyEnter)).1.history.Items =
      ["Cat"] ∧
    (Update plainStyles basicToolkit typedExample (.KeyMsg .KeyEnter)).2 =
      .lookupDefinition "Cat" :=
  ⟨by decide, by decide,
   ((submit_searchMode plainStyles basicToolkit typedExample (by decide)).1 (by decide)).2.2.1,
   ((submit_searchMode plainStyles basicToolkit typedExample (by decide)).1
      (by decide)).2.2.2.1,
   ((submit_searchMode plainStyles basicToolkit typedExample (by decide)).1
      (by decide)).2.2.2.2.2.1⟩

/-- C7, as amended. In History mode with a selected item `w`, Enter moves the
session to Search mode, records `w` as the last searched word, focuses the text
input, sets the status text to "Reviewing definition for: " followed by the
styled `w` and "...", leaves the history buffer as it is, and the command is the
lookup of `w`. -/
theorem submit_historyMode (st : Styles) (tk : Toolkit) (m : model)
    (hmode : m.mode = .historyMode) (w : String) (hsel : m.history.SelectedItem = some w) :
    (Update st tk m (.KeyMsg .KeyEnter)).1.mode = .searchMode ∧
    (Update st tk m (.KeyMsg .KeyEnter)).1.word = w ∧
    (Update st tk m (.KeyMsg .KeyEnter)).1.textInput.focus = true ∧
    (Update st tk m (.KeyMsg .KeyEnter)).1.definition =
      "Reviewing definition for: " ++ st.keywordStyle w ++ "..." ∧
    (Update st tk m (.KeyMsg .KeyEnter)).1.history = m.history ∧
    (Update st tk m (.KeyMsg .KeyEnter)).2 = .lookupDefinition w ∧
    (Update st tk m (.KeyMsg .KeyEnter)).2.lookups = [w] := by
  rw [Update_enter_historyMode st tk m hmode]
  simp only [handleHistoryMode, hsel, if_true]
  exact ⟨trivial, trivial, rfl, trivial, trivial, trivial, rfl⟩

/-- C7 as amended, at the session in History mode with the word `a` selected. -/
theorem submit_historyMode_witness :
    historyExample.mode = .historyMode ∧
    historyExample.history.SelectedItem = some "a" ∧
    (Update plainStyles basicToolkit historyExample (.KeyMsg .KeyEnter)).1.mode =
      .searchMode ∧
    (Update plainStyles basicToolkit historyExample (.KeyMsg .KeyEnter)).1.history =
      historyExample.history ∧
    (Update plainStyles basicToolkit historyExample (.KeyMsg .KeyEnter)).2 =
      .lookupDefinition "a" :=
  ⟨by decide, by decide,
   (submit_historyMode plainStyles basicToolkit historyExample (by decide) "a" (by decide)).1,
   (submit_historyMode plainStyles basicToolkit historyExample (by decide) "a"
      (by decide)).2.2.2.2.1,
   (submit_historyMode plainStyles basicToolkit historyExample (by decide) "a"
      (by decide)).2.2.2.2.2.1⟩

/-- C7 fails as stated. In the reachable History-mode session with the word `a`
selected and the history `[a]`, Enter leaves the history at `[a]`, not at `a`
pushed onto it, and the status text is "Reviewing definition for: [a]...", not
the "Searching..." of a Search-mode submission. -/
theorem submit_historyMode_counterexample :
    Reachable plainStyles basicToolkit historyExample ∧
    historyExample.mode = .historyMode ∧
    historyExample.history.SelectedItem = some "a" ∧
    historyExample.history.Items = ["a"] ∧
    (Update plainStyles basicToolkit historyExample (.KeyMsg .KeyEnter)).1.history.Items =
      ["a"] ∧
    (Update plainStyles basicToolkit historyExample (.KeyMsg .KeyEnter)).1.history.Items ≠
      ("a" :: historyExample.history.Items).take 10 ∧
    (Update plainStyles basicToolkit historyExample (.KeyMsg .KeyEnter)).1.definition =
      "Reviewing definition for: [a]..." ∧
    (Update plainStyles basicToolkit historyExample (.KeyMsg .KeyEnter)).1.definition ≠
      "Searching..." :=
  ⟨reachable_run _ _ _ _ Reachable.init, by decide, by decide, by decide, by decide, by decide,
   by decide, by decide⟩

/-- C8, as amended. Handling the error message of a failed lookup sets the status
text to "Error fetching definition: " followed by the message, a line break and
"Press Enter to try again.", records the error as the last error, leaves the
text input focused, the mode and the history buffer unchanged, and the command
does not quit, given widgets that ignore the message. -/
theorem Update_errMsg (st : Styles) (tk : Toolkit) (hq : tk.QuietOnErr) (m : model)
    (err : LookupError) :
    (Update st tk m (.errMsg err)).1.definition =
      "Error fetching definition: " ++ err.Error ++ "\nPress Enter to try again." ∧
    (Update st tk m (.errMsg err)).1.err = some err ∧
    (Update st tk m (.errMsg err)).1.textInput.focus = true ∧
    (Update st tk m (.errMsg err)).1.mode = m.mode ∧
    (Update st tk m (.errMsg err)).1.history.Items = m.history.Items ∧
    (Update st tk m (.errMsg err)).2.issuesQuit = false := by
  cases hmode : m.mode
  · simp only [Update, updateByMode, hmode, handleSearchMode, if_true, if_false,
      show (Msg.errMsg err = Msg.KeyMsg KeyType.KeyEnter) = False from by simp]
    refine ⟨trivial, trivial, ?_, trivial, trivial, ?_⟩
    · rw [hq.textInput_focus]
      rfl
    · have h1 := hq.textInput_cmd m.textInput.Focus err
      have h2 := hq.viewport_cmd
        (m.viewport.SetContent
          ("Error fetching definition: " ++ err.Error ++ "\nPress Enter to try again.")) err
      simp [Cmd.issuesQuit, h1, h2]
  · simp only [Update, updateByMode, hmode, handleHistoryMode, if_false,
      show (Msg.errMsg err = Msg.KeyMsg KeyType.KeyEnter) = False from by simp,
      show (appMode.historyMode = appMode.searchMode) = False from by simp]
    refine ⟨trivial, trivial, rfl, trivial, ?_, ?_⟩
    · exact hq.list_items _ _
    · have h1 := hq.list_cmd m.history err
      simp [Cmd.issuesQuit, h1]

/-- C8 as amended, at the initial session and the not-found error for `xyzzy`. -/
theorem Update_errMsg_witness :
    (Update plainStyles basicToolkit initialModel (.errMsg (.notFound "xyzzy"))).1.definition =
      "Error fetching definition: definition for 'xyzzy' not found\nPress Enter to try again." ∧
    (Update plainStyles basicToolkit initialModel (.errMsg (.notFound "xyzzy"))).2.issuesQuit =
      false :=
  ⟨(Update_errMsg plainStyles basicToolkit basicToolkit_quietOnErr initialModel
      (.notFound "xyzzy")).1,
   (Update_errMsg plainStyles basicToolkit basicToolkit_quietOnErr initialModel
      (.notFound "xyzzy")).2.2.2.2.2⟩

/-- C8 fails as stated. For the not-found error of `xyzzy` the status text has a
line break between the message and "Press Enter to try again.", not a full stop
and a space. -/
theorem Update_errMsg_counterexample :
    (LookupError.notFound "xyzzy").Error = "definition for 'xyzzy' not found" ∧
    (Update plainStyles basicToolkit initialModel (.errMsg (.notFound "xyzzy"))).1.definition =
      "Error fetching definition: definition for 'xyzzy' not found\nPress Enter to try again." ∧
    (Update plainStyles basicToolkit initialModel (.errMsg (.notFound "xyzzy"))).1.definition ≠
      "Error fetching definition: definition for 'xyzzy' not found. Press Enter to try again." :=
  ⟨by decide, by decide, by decide⟩

end DictionaryTui
